import Mathlib

/-!
Shallow embedding of the EPUB navigator and the CPT extraction driver
(`rag/shared_libraries/epub_navigator.py` and
`rag/shared_libraries/cpt_extractor.py`), with theorems settling the
frozen claims about them.
-/

namespace EpubCpt

/-- A parsed JSON value, the result type of the model of Python's
`json.loads`.  Numeric literals are modelled as integers; fractional and
exponent forms and `\u` escapes are outside the fragment exercised here. -/
inductive JValue : Type where
  | null : JValue
  | bool : Bool → JValue
  | num : Int → JValue
  | str : String → JValue
  | arr : List JValue → JValue
  | obj : List (String × JValue) → JValue

/-- JSON insignificant whitespace (RFC 8259 / Python `json`). -/
def jWs (c : Char) : Bool := c = ' ' || c = '\t' || c = '\n' || c = '\r'

/-- Drop leading JSON whitespace. -/
def jSkip : List Char → List Char
  | [] => []
  | c :: cs => if jWs c then jSkip cs else c :: cs

/-- Single-character string escapes recognised by the model. -/
def jEsc : Char → Option Char
  | 'n' => some '\n'
  | 't' => some '\t'
  | 'r' => some '\r'
  | 'b' => some (Char.ofNat 8)
  | 'f' => some (Char.ofNat 12)
  | '"' => some '"'
  | '\\' => some '\\'
  | '/' => some '/'
  | _ => none

/-- Parse the body of a JSON string after the opening quote; returns the
string's characters and the remaining input, or `none` for an
unterminated string or a bad escape. -/
def jStrAux : List Char → Option (List Char × List Char)
  | [] => none
  | '"' :: rest => some ([], rest)
  | '\\' :: e :: rest =>
    match jEsc e with
    | none => none
    | some c =>
      match jStrAux rest with
      | none => none
      | some (s, r) => some (c :: s, r)
  | c :: rest =>
    if c = '\\' then none
    else
      match jStrAux rest with
      | none => none
      | some (s, r) => some (c :: s, r)

/-- Split a leading run of decimal digits off the input. -/
def jDigits : List Char → List Char × List Char
  | [] => ([], [])
  | c :: cs =>
    if !c.isDigit then ([], c :: cs)
    else
      let p := jDigits cs
      (c :: p.1, p.2)

/-- Value of a list of decimal digit characters. -/
def digitsVal (ds : List Char) : Nat :=
  ds.foldl (fun a c => a * 10 + (c.toNat - 48)) 0

/-- Parse an (integer) JSON numeric literal: an optional minus sign
followed by at least one digit. -/
def jNum (cs : List Char) : Option (JValue × List Char) :=
  match cs with
  | '-' :: r =>
    (match jDigits r with
     | ([], _) => none
     | (ds, rest) => some (JValue.num (-(digitsVal ds : Int)), rest))
  | _ =>
    match jDigits cs with
    | ([], _) => none
    | (ds, rest) => some (JValue.num (digitsVal ds : Int), rest)

/-- Require the given keyword characters at the head of the input,
returning what follows them. -/
def jKeyword : List Char → List Char → Option (List Char)
  | [], rest => some rest
  | k :: ks, c :: rest => if c = k then jKeyword ks rest else none
  | _ :: _, [] => none

mutual

/-- Parse one JSON value (fuel-bounded recursive descent). -/
def jVal : Nat → List Char → Option (JValue × List Char)
  | 0, _ => none
  | fuel + 1, cs =>
    match jSkip cs with
    | 'n' :: r =>
      (match jKeyword ['u', 'l', 'l'] r with
       | some r1 => some (JValue.null, r1)
       | none => none)
    | 't' :: r =>
      (match jKeyword ['r', 'u', 'e'] r with
       | some r1 => some (JValue.bool true, r1)
       | none => none)
    | 'f' :: r =>
      (match jKeyword ['a', 'l', 's', 'e'] r with
       | some r1 => some (JValue.bool false, r1)
       | none => none)
    | '"' :: r =>
      (match jStrAux r with
       | some (s, r1) => some (.str ⟨s⟩, r1)
       | none => none)
    | '[' :: r =>
      (match jSkip r with
       | ']' :: r1 => some (.arr [], r1)
       | cs1 =>
         match jItems fuel cs1 with
         | some (es, r1) => some (.arr es, r1)
         | none => none)
    | '{' :: r =>
      (match jSkip r with
       | '}' :: r1 => some (.obj [], r1)
       | cs1 =>
         match jMembers fuel cs1 with
         | some (ms, r1) => some (.obj ms, r1)
         | none => none)
    | cs1 => jNum cs1

/-- Parse one-or-more comma-separated array items up to `]`. -/
def jItems : Nat → List Char → Option (List JValue × List Char)
  | 0, _ => none
  | fuel + 1, cs =>
    match jVal fuel cs with
    | none => none
    | some (v, r) =>
      match jSkip r with
      | ',' :: r1 =>
        (match jItems fuel r1 with
         | some (vs, r2) => some (v :: vs, r2)
         | none => none)
      | ']' :: r1 => some ([v], r1)
      | _ => none

/-- Parse one-or-more comma-separated object members up to `}`. -/
def jMembers : Nat → List Char → Option (List (String × JValue) × List Char)
  | 0, _ => none
  | fuel + 1, cs =>
    match jSkip cs with
    | '"' :: r =>
      (match jStrAux r with
       | none => none
       | some (k, r1) =>
         match jSkip r1 with
         | ':' :: r2 =>
           (match jVal fuel r2 with
            | none => none
            | some (v, r3) =>
              match jSkip r3 with
              | ',' :: r4 =>
                (match jMembers fuel r4 with
                 | some (ms, r5) => some ((⟨k⟩, v) :: ms, r5)
                 | none => none)
              | '}' :: r4 => some ([(⟨k⟩, v)], r4)
              | _ => none)
         | _ => none)
    | _ => none

end

/-- Model of Python's `json.loads`: parse exactly one JSON value, allowing
surrounding whitespace only; any trailing non-whitespace is "Extra data"
and makes the whole parse fail (return `none`, modelling
`json.JSONDecodeError`). -/
def json_loads (s : String) : Option JValue :=
  let cs := s.toList
  match jVal (2 * cs.length + 8) cs with
  | some (v, r) => if jSkip r = [] then some v else none
  | none => none

/-- Model of Python's `str` on a nonnegative integer: its decimal digit
characters (fuel-bounded division recursion). -/
def natChars : Nat → Nat → List Char
  | 0, _ => []
  | fuel + 1, n =>
    if n < 10 then [Char.ofNat (48 + n)]
    else natChars fuel (n / 10) ++ [Char.ofNat (48 + n % 10)]

/-- Model of Python's `str(n)` for a nonnegative `n` (the form JSON object
keys take when `json.dump` serialises an int-keyed dict). -/
def str_of_nat (n : Nat) : String := ⟨natChars (n + 1) n⟩

/-- Model of Python's `int(s)` on a decimal-digit string: `none` models
`ValueError` (raised when the string is not all digits or is empty). -/
def int_of_str (s : String) : Option Nat :=
  let cs := s.toList
  if cs ≠ [] ∧ cs.all Char.isDigit then some (digitsVal cs) else none

/-- Python `str.strip()` whitespace (ASCII fragment). -/
def pyIsSpace (c : Char) : Bool :=
  c = ' ' || c = '\t' || c = '\n' || c = '\r' || c = '\x0b' || c = '\x0c'

/-- Strip leading and trailing whitespace from a character list. -/
def stripChars (cs : List Char) : List Char :=
  ((cs.dropWhile pyIsSpace).reverse.dropWhile pyIsSpace).reverse

/-- Model of Python's `str.strip()`. -/
def pyStrip (s : String) : String := ⟨stripChars s.toList⟩

/-- Split a character list on newline characters, Python `split('\n')`
semantics: the empty input yields one empty field, separators delimit
fields and are dropped. -/
def splitNl : List Char → List (List Char)
  | [] => [[]]
  | '\n' :: r => [] :: splitNl r
  | c :: r =>
    match splitNl r with
    | [] => [[c]]
    | l :: ls => (c :: l) :: ls

/-- Model of Python's `str.split('\n')`. -/
def pySplitLines (s : String) : List String := (splitNl s.toList).map (⟨·⟩)

/-- One `page_map` entry: `{'file_id': ..., 'full_path': ..., 'anchor_id': ...}`
(`EPUBNavigator._build_page_map`). -/
structure PageInfo where
  file_id : String
  full_path : String
  anchor_id : String
deriving DecidableEq

/-- Model of `os.path.join(opf_dir, href)` for the relative paths the
navigator builds (`full_path = os.path.join(opf_dir, href) if opf_dir else href`). -/
def joinPath (d f : String) : String := if d = "" then f else d ++ "/" ++ f

/-- The navigator's state after `__init__`, with the zip archive and
BeautifulSoup held abstract: `textOf p` is `soup.get_text(separator='\n')`
for the file at path `p`, and `headings p t` is the document-order list of
`get_text(strip=True)` values of soup `find_all` on tag `t` in that file. -/
structure EPUBNavigator where
  spine : List String
  manifest : String → Option String
  opf_dir : String
  page_map : List (Nat × PageInfo)
  textOf : String → String
  headings : String → String → List String

/-- Python dict lookup `page_map.get(k)` on the insertion-ordered
association-list model of the dict (first match; keys are unique by
construction under `dinsert`). -/
def lookupPage : List (Nat × PageInfo) → Nat → Option PageInfo
  | [], _ => none
  | p :: m, k => if p.1 = k then some p.2 else lookupPage m k

/-- Python dict assignment `m[k] = v`: overwrite in place if the key is
present, else append (insertion order preserved). -/
def dinsert (m : List (Nat × PageInfo)) (k : Nat) (v : PageInfo) : List (Nat × PageInfo) :=
  if m.any (fun p => p.1 = k) then
    m.map (fun p => if p.1 = k then (k, v) else p)
  else m ++ [(k, v)]

/-- The page-marker pattern `re.compile(r'^page_\d+$')` on a span id
(ASCII digits). -/
def isPageMarkerId (s : String) : Bool :=
  match s.toList with
  | 'p' :: 'a' :: 'g' :: 'e' :: '_' :: rest => !rest.isEmpty && rest.all Char.isDigit
  | _ => false

/-- `int(span['id'].replace('page_', ''))` for an id matching the marker
pattern (reaching the default 0 is impossible on ids the scan filters). -/
def pageNumOf (s : String) : Nat :=
  match s.toList with
  | 'p' :: 'a' :: 'g' :: 'e' :: '_' :: rest => digitsVal rest
  | _ => 0

/-- `EPUBNavigator._build_page_map` (cache-miss scan): walk the spine in
order; skip ids missing from the manifest; in each file take every span
whose id matches the page pattern, in document order, and assign
`page_map[page_num] = {file_id, full_path, anchor_id}`.  `spanIds p` is
the document-order list of span ids of the file at path `p`. -/
def build_page_map (spine : List String) (manifest : String → Option String)
    (opf_dir : String) (spanIds : String → List String) : List (Nat × PageInfo) :=
  spine.foldl (fun m item_id =>
    match manifest item_id with
    | none => m
    | some href =>
      let full_path := joinPath opf_dir href
      ((spanIds full_path).filter isPageMarkerId).foldl
        (fun m sid => dinsert m (pageNumOf sid) ⟨item_id, full_path, sid⟩) m) []

/-- The scan's page-number assignments flattened into one list, in scan
order (spine order, document order within a file): the sequence of
`page_map[page_num] = info` writes `_build_page_map` performs. -/
def scanAssignments (spine : List String) (manifest : String → Option String)
    (opf_dir : String) (spanIds : String → List String) : List (Nat × PageInfo) :=
  (spine.map (fun item_id =>
    match manifest item_id with
    | none => []
    | some href =>
      let full_path := joinPath opf_dir href
      ((spanIds full_path).filter isPageMarkerId).map
        (fun sid => (pageNumOf sid, (⟨item_id, full_path, sid⟩ : PageInfo))))).flatten

/-- The path the navigator reads for a spine id (total rendering used in
theorem statements; meaningful when the manifest has the id). -/
def pathOf (nav : EPUBNavigator) (id : String) : String :=
  joinPath nav.opf_dir ((nav.manifest id).getD "")

/-- The text the navigator extracts for a spine id. -/
def textAt (nav : EPUBNavigator) (id : String) : String := nav.textOf (pathOf nav id)

/-- The spine walk of `get_content_by_page_range`: skip files before
`start_page`'s file, then append each file's text, breaking (inclusively)
at `end_info`'s file when `end_info` is present.  `none` models the
uncaught `TypeError` from `os.path.join(opf_dir, None)` when a spine id is
missing from the manifest (computed before the skip test in the source). -/
def rangeLoop (nav : EPUBNavigator) (sFile : String) (endInfo : Option PageInfo) :
    List String → Bool → List String → Option (List String)
  | [], _, content => some content
  | item_id :: rest, collecting, content =>
    match nav.manifest item_id with
    | none => none
    | some href =>
      let full_path := joinPath nav.opf_dir href
      if collecting = false ∧ item_id ≠ sFile then
        rangeLoop nav sFile endInfo rest false content
      else
        let content1 := content ++ [nav.textOf full_path]
        match endInfo with
        | some ei =>
          if item_id = ei.file_id then some content1
          else rangeLoop nav sFile endInfo rest true content1
        | none => rangeLoop nav sFile endInfo rest true content1

/-- `EPUBNavigator.get_content_by_page_range`: error string when
`start_page` is unindexed; otherwise the `'\n'.join` of the walked files'
texts, with the stop boundary looked up at `end_page + 1`. -/
def get_content_by_page_range (nav : EPUBNavigator) (start_page end_page : Nat) :
    Option String :=
  let start_info := lookupPage nav.page_map start_page
  let end_info := lookupPage nav.page_map (end_page + 1)
  match start_info with
  | none => some ("Error: Start page " ++ toString start_page ++ " not found.")
  | some si =>
    match rangeLoop nav si.file_id end_info nav.spine false [] with
    | none => none
    | some content => some (String.intercalate "\n" content)

/-- The context dict built by `get_hierarchy_context`, with all eight keys
it is initialised with. -/
structure HierarchyContext where
  «section» : Option String
  section_text : Option String
  subsection : Option String
  subsection_text : Option String
  subheading : Option String
  subheading_text : Option String
  topic : Option String
  topic_text : Option String
deriving DecidableEq

/-- The all-`None` context `get_hierarchy_context` starts from. -/
def emptyContext : HierarchyContext := ⟨none, none, none, none, none, none, none, none⟩

/-- One file visit of the backward walk: for each still-unresolved level,
assign the last occurrence of its heading tag in the file (h4 topic, h3
subheading, h2 subsection, h1 section, in source order); when the file
has no such tag the level is left unchanged (`getLast?` of `[]`). -/
def fillFromFile (nav : EPUBNavigator) (full_path : String) (ctx : HierarchyContext) :
    HierarchyContext :=
  { ctx with
    topic := if ctx.topic = none then (nav.headings full_path "h4").getLast? else ctx.topic
    subheading :=
      if ctx.subheading = none then (nav.headings full_path "h3").getLast? else ctx.subheading
    subsection :=
      if ctx.subsection = none then (nav.headings full_path "h2").getLast? else ctx.subsection
    «section» :=
      if ctx.«section» = none then (nav.headings full_path "h1").getLast? else ctx.«section» }

/-- The `all(v is not None ...)` early-exit test (the four name levels). -/
def allResolved (ctx : HierarchyContext) : Bool :=
  ctx.«section».isSome && ctx.subsection.isSome && ctx.subheading.isSome && ctx.topic.isSome

/-- The backward spine walk of `get_hierarchy_context` over the visited
files in visit order (`spine[start_index]`, ..., `spine[0]`); `none`
models the uncaught `TypeError` when a visited id is missing from the
manifest. -/
def hierFiles (nav : EPUBNavigator) : List String → HierarchyContext → Option HierarchyContext
  | [], ctx => some ctx
  | item_id :: rest, ctx =>
    match nav.manifest item_id with
    | none => none
    | some href =>
      let ctx1 := fillFromFile nav (joinPath nav.opf_dir href) ctx
      if allResolved ctx1 then some ctx1 else hierFiles nav rest ctx1

/-- Python `list.index`: index of the first occurrence, `none` modelling
`ValueError` when absent. -/
def list_index (l : List String) (x : String) : Option Nat :=
  match l with
  | [] => none
  | y :: ys => if y = x then some 0 else (list_index ys x).map (· + 1)

/-- `EPUBNavigator.get_hierarchy_context`: all-`None` context for an
unindexed page; otherwise the backward walk from the page's file
(`for i in range(start_index, -1, -1)` visits exactly
`(spine.take (start_index+1)).reverse`). -/
def get_hierarchy_context (nav : EPUBNavigator) (page_number : Nat) :
    Option HierarchyContext :=
  match lookupPage nav.page_map page_number with
  | none => some emptyContext
  | some info =>
    match list_index nav.spine info.file_id with
    | none => none
    | some i => hierFiles nav ((nav.spine.take (i + 1)).reverse) emptyContext

/-- One chapter boundary record of `get_chapter_boundaries`. -/
structure ChapterBoundary where
  file_id : String
  start_page : Nat
  end_page : Nat
deriving DecidableEq

/-- The pages the page map assigns to one file, in map insertion order
(the grouping `file_to_pages` performs). -/
def pagesOfFile (m : List (Nat × PageInfo)) (fid : String) : List Nat :=
  (m.filter (fun p => p.2.file_id = fid)).map (fun p => p.1)

/-- `EPUBNavigator.get_chapter_boundaries`: one boundary per spine file
owning at least one indexed page, in spine order; `sorted(pages)[0]` and
`sorted(pages)[-1]` are the minimum and maximum page of the file. -/
def get_chapter_boundaries (spine : List String) (m : List (Nat × PageInfo)) :
    List ChapterBoundary :=
  spine.filterMap (fun item_id =>
    match pagesOfFile m item_id with
    | [] => none
    | p :: ps => some ⟨item_id, ps.foldl min p, ps.foldl max p⟩)

/-- The page-map cache entry `json.dump` writes for one `PageInfo` dict. -/
def infoToJson (i : PageInfo) : JValue :=
  .obj [("file_id", .str i.file_id), ("full_path", .str i.full_path),
        ("anchor_id", .str i.anchor_id)]

/-- `json.dump(page_map, f)`: int keys become their decimal strings;
values are the info dicts. -/
def dumpPageMap (m : List (Nat × PageInfo)) : List (String × JValue) :=
  m.map (fun p => (str_of_nat p.1, infoToJson p.2))

/-- The cache load `{int(k): v for k, v in data.items()}`: coerce each key
back to an integer, keeping values verbatim; `none` models `ValueError`
from `int` on a malformed key. -/
def loadPageMap : List (String × JValue) → Option (List (Nat × JValue))
  | [] => some []
  | (s, v) :: rest =>
    match int_of_str s with
    | none => none
    | some k =>
      match loadPageMap rest with
      | none => none
      | some l => some ((k, v) :: l)

/-- The markdown-fence cleanup of `CPTExtractor.extract_pages`: strip,
drop one leading ```json, one leading ```, one trailing ```, strip. -/
def stripFences (text : String) : String :=
  let cleaned := text.trim
  let cleaned := if cleaned.startsWith "```json" then cleaned.drop 7 else cleaned
  let cleaned := if cleaned.startsWith "```" then cleaned.drop 3 else cleaned
  let cleaned := if cleaned.endsWith "```" then cleaned.dropRight 3 else cleaned
  cleaned.trim

/-- The text `extract_pages` hands back to the driver: the cleaned model
response on success, and the literal `"[]"` when the generation call
raised (`except Exception: ... return "[]"`). -/
def extract_pages_result : Option String → String
  | none => "[]"
  | some t => stripFences t

/-- The JSONL pass of the driver's parse (first attempt): split the
stripped response on newlines, skip blank lines, `json.loads` each line,
silently dropping lines that fail. -/
def lineRecords (text : String) : List JValue :=
  (pySplitLines (pyStrip text)).foldl (fun acc line =>
    let l := pyStrip line
    if l = "" then acc
    else
      match json_loads l with
      | some obj => acc ++ [obj]
      | none => acc) []

/-- The driver's two-stage chunk parse (`main`, cpt_extractor.py): JSONL
first; if that produced nothing, `json.loads` the whole text, taking a
top-level list as-is and wrapping a top-level dict; anything else (or a
parse error) leaves zero records. -/
def parseChunkCodes (text : String) : List JValue :=
  match lineRecords text with
  | [] =>
    (match json_loads text with
     | some (.arr l) => l
     | some (.obj ms) => [.obj ms]
     | _ => [])
  | codes => codes

/-- The driver state carried across chunks (`all_codes`,
`last_code_context`). -/
structure LoopState where
  all_codes : List JValue
  last_code_context : Option JValue

/-- Outcome of one chunk iteration of the driver loop: normal completion
with the updated state and the artifacts written, or an uncaught
exception aborting the run. -/
inductive StepResult where
  | ok (st : LoopState) (chunkArtifact : Option (String × List JValue))
      (debugArtifact : Option (String × String))
  | crash

/-- `f"cpt_{current_start}_{current_end}_chapter.jsonl"` (with the output
directory prefix empty). -/
def chunkArtifactName (s e : Nat) : String :=
  "cpt_" ++ toString s ++ "_" ++ toString e ++ "_chapter.jsonl"

/-- `f"cpt_{current_start}_{current_end}_raw_error.txt"` (with the output
directory prefix empty). -/
def debugArtifactName (s e : Nat) : String :=
  "cpt_" ++ toString s ++ "_" ++ toString e ++ "_raw_error.txt"

/-- One iteration of the driver loop on a chunk's response text: zero
records raise-and-catch `json.JSONDecodeError`, writing the raw text to
the page-range debug artifact and leaving the state untouched; otherwise
the state is extended and `last_code_context` becomes the chunk's last
record — whose `.get('code', 'N/A')` access is an uncaught
`AttributeError` (`crash`) whenever that record is not a dict. -/
def processChunk (st : LoopState) (current_start current_end : Nat)
    (json_response_text : String) : StepResult :=
  match parseChunkCodes json_response_text with
  | [] => .ok st none (some (debugArtifactName current_start current_end, json_response_text))
  | c :: cs =>
    match (c :: cs).getLast (List.cons_ne_nil c cs) with
    | .obj ms =>
      .ok ⟨st.all_codes ++ (c :: cs), some (.obj ms)⟩
        (some (chunkArtifactName current_start current_end, c :: cs)) none
    | _ => .crash

/-- The driver loop over the planned chunks, each given with its response
text; `none` models the run aborting on an uncaught exception. -/
def runChunks (st : LoopState) : List (Nat × Nat × String) → Option LoopState
  | [] => some st
  | (s, e, resp) :: rest =>
    match processChunk st s e resp with
    | .ok st1 _ _ => runChunks st1 rest
    | .crash => none

/-- Left-biased choice on options (`a` if resolved, else `b`). -/
def oOr {α : Type} : Option α → Option α → Option α
  | none, b => b
  | some a, _ => some a

/-- The last `page_map[k] = v` write for key `k` in a list of assignments
in scan order (`none` when `k` is never assigned). -/
def lastAssign : List (Nat × PageInfo) → Nat → Option PageInfo
  | [], _ => none
  | p :: l, k =>
    match lastAssign l k with
    | some v => some v
    | none => if p.1 = k then some p.2 else none

/-- The last occurrence of heading tag `tag` in the file of spine id `id`
(`find_all(tag)[-1]`, absent when the file has none). -/
def lastHeading (nav : EPUBNavigator) (id tag : String) : Option String :=
  (nav.headings (pathOf nav id) tag).getLast?

/-- Independent backward search for one hierarchy level over the visited
files in visit order: the last occurrence of `tag` in the first visited
file that contains one. -/
def backSearch (nav : EPUBNavigator) (files : List String) (tag : String) : Option String :=
  (files.filterMap (fun id => lastHeading nav id tag)).head?

/-- Whether `page` lies in a boundary's inclusive page range. -/
def boundaryContains (b : ChapterBoundary) (page : Nat) : Bool :=
  decide (b.start_page ≤ page) && decide (page ≤ b.end_page)

/-- Fixture: a two-file manifest (`fileA ↦ A.html`, `fileB ↦ B.html`). -/
def exManifest : String → Option String := fun id =>
  if id = "fileA" then some "A.html" else if id = "fileB" then some "B.html" else none

/-- Fixture navigator for the range-extraction scenarios: index
`{1: (fileA, a1), 2: (fileA, a2), 3: (fileB, a3)}` over the spine
`[fileA, fileB]`, with file texts `TA` and `TB`. -/
def exNav : EPUBNavigator where
  spine := ["fileA", "fileB"]
  manifest := exManifest
  opf_dir := ""
  page_map := [(1, ⟨"fileA", "A.html", "a1"⟩), (2, ⟨"fileA", "A.html", "a2"⟩),
               (3, ⟨"fileB", "B.html", "a3"⟩)]
  textOf := fun p => if p = "A.html" then "TA" else if p = "B.html" then "TB" else ""
  headings := fun _ _ => []

/-- Fixture navigator for the hierarchy scenario: one file containing two
`h1` headings, "Surgery" then "Medicine", and a page anchored in it. -/
def hierNav : EPUBNavigator where
  spine := ["fileA"]
  manifest := fun id => if id = "fileA" then some "A.html" else none
  opf_dir := ""
  page_map := [(10, ⟨"fileA", "A.html", "page_10"⟩)]
  textOf := fun _ => ""
  headings := fun p t => if p = "A.html" ∧ t = "h1" then ["Surgery", "Medicine"] else []

/-- Fixture manifest for the duplicate-page-marker scan. -/
def dupManifest : String → Option String := fun id =>
  if id = "A" then some "a.html" else if id = "B" then some "b.html" else none

/-- Fixture span ids for the duplicate-page-marker scan: both files carry
a marker for page 7. -/
def dupSpans : String → List String := fun p =>
  if p = "a.html" then ["page_7"] else if p = "b.html" then ["page_7"] else []

/-- Fixture page map whose two files' page ranges interleave: file A owns
pages 1 and 3, file B owns page 2. -/
def interMap : List (Nat × PageInfo) :=
  [(1, ⟨"A", "a", "p1"⟩), (3, ⟨"A", "a", "p3"⟩), (2, ⟨"B", "b", "p2"⟩)]

/-- Fixture page map with non-interleaved files: file A owns pages 1 and
2, file B owns page 3. -/
def contigMap : List (Nat × PageInfo) :=
  [(1, ⟨"A", "a", "p1"⟩), (2, ⟨"A", "a", "p2"⟩), (3, ⟨"B", "b", "p3"⟩)]

/-- Fixture response: two valid JSONL lines followed by one truncated
line. -/
def truncatedResponse : String :=
  "\x7b\"code\": \"100\"\x7d\n\x7b\"code\": \"200\"\x7d\n\x7b\"code\": \"300\""

/-- Fixture response: one top-level JSON array of three objects, spread
over multiple lines as a pretty-printer emits it. -/
def arrayResponse : String :=
  "[\n \x7b\n  \"code\": \"A\"\n \x7d,\n \x7b\n  \"code\": \"B\"\n \x7d,\n \x7b\n  \"code\": \"C\"\n \x7d\n]"

/-- Fixture response: a single top-level JSON object spread over multiple
lines. -/
def objectResponse : String := "\x7b\n \"code\": \"X\"\n\x7d"

/-! ## Theorems -/

/-- C9: for every start page with no entry in the page index,
`get_content_by_page_range` returns (normally — it cannot raise here, the
check precedes the spine walk) the descriptive error string naming the
missing page, whatever the end page is. -/
theorem C9_missing_start_page_error (nav : EPUBNavigator) (start_page end_page : Nat)
    (h : lookupPage nav.page_map start_page = none) :
    get_content_by_page_range nav start_page end_page
      = some ("Error: Start page " ++ toString start_page ++ " not found.") := by
  simp only [get_content_by_page_range, h]

/-- Witness for C9 at a concrete unindexed page. -/
theorem C9_witness :
    lookupPage exNav.page_map 99 = none ∧
    get_content_by_page_range exNav 99 3 = some "Error: Start page 99 not found." :=
  ⟨rfl, C9_missing_start_page_error exNav 99 3 rfl⟩

/-- Every file visit of the backward hierarchy walk leaves the four
narrative-text fields of the context untouched. -/
theorem fillFromFile_text_fields (nav : EPUBNavigator) (p : String) (ctx : HierarchyContext) :
    (fillFromFile nav p ctx).section_text = ctx.section_text ∧
    (fillFromFile nav p ctx).subsection_text = ctx.subsection_text ∧
    (fillFromFile nav p ctx).subheading_text = ctx.subheading_text ∧
    (fillFromFile nav p ctx).topic_text = ctx.topic_text :=
  ⟨rfl, rfl, rfl, rfl⟩

/-- The backward walk as a whole leaves the four narrative-text fields of
the starting context untouched. -/
theorem hierFiles_text_fields (nav : EPUBNavigator) :
    ∀ (files : List String) (ctx res : HierarchyContext), hierFiles nav files ctx = some res →
      res.section_text = ctx.section_text ∧ res.subsection_text = ctx.subsection_text ∧
      res.subheading_text = ctx.subheading_text ∧ res.topic_text = ctx.topic_text := by
  intro files
  induction files with
  | nil =>
    intro ctx res h
    obtain rfl : ctx = res := Option.some.inj h
    exact ⟨rfl, rfl, rfl, rfl⟩
  | cons id rest ih =>
    intro ctx res h
    simp only [hierFiles] at h
    split at h
    · exact absurd h (by simp)
    · obtain ⟨e1, e2, e3, e4⟩ := fillFromFile_text_fields nav (joinPath nav.opf_dir _) ctx
      split at h
      · obtain rfl := Option.some.inj h
        exact ⟨e1, e2, e3, e4⟩
      · obtain ⟨f1, f2, f3, f4⟩ := ih _ _ h
        exact ⟨f1.trans e1, f2.trans e2, f3.trans e3, f4.trans e4⟩

/-- C10: whatever page number (indexed or not) the hierarchy resolver is
asked about, any context it returns has its four narrative-text fields
(`section_text`, `subsection_text`, `subheading_text`, `topic_text`)
unresolved: only the four heading-name fields are ever filled. -/
theorem C10_text_levels_never_resolved (nav : EPUBNavigator) (page : Nat)
    (ctx : HierarchyContext) (h : get_hierarchy_context nav page = some ctx) :
    ctx.section_text = none ∧ ctx.subsection_text = none ∧
    ctx.subheading_text = none ∧ ctx.topic_text = none := by
  simp only [get_hierarchy_context] at h
  split at h
  · obtain rfl : emptyContext = ctx := Option.some.inj h
    exact ⟨rfl, rfl, rfl, rfl⟩
  · split at h
    · exact absurd h (by simp)
    · exact hierFiles_text_fields nav _ _ _ h

/-- Witness for C10 at a concrete resolved page. -/
theorem C10_witness :
    get_hierarchy_context hierNav 10
        = some ⟨some "Medicine", none, none, none, none, none, none, none⟩ ∧
    ((⟨some "Medicine", none, none, none, none, none, none, none⟩ :
        HierarchyContext).section_text = none ∧
      (⟨some "Medicine", none, none, none, none, none, none, none⟩ :
        HierarchyContext).subsection_text = none ∧
      (⟨some "Medicine", none, none, none, none, none, none, none⟩ :
        HierarchyContext).subheading_text = none ∧
      (⟨some "Medicine", none, none, none, none, none, none, none⟩ :
        HierarchyContext).topic_text = none) :=
  ⟨rfl, C10_text_levels_never_resolved hierNav 10 _ rfl⟩

/-- C4 counterexample: on the index `{1: fileA, 2: fileA, 3: fileB}`, the
range request for pages 1–2 does *not* return fileA's content only: the
stop boundary is page 3's file (fileB), which is consumed inclusively, so
fileB's text is part of the result. -/
theorem C4_counterexample :
    textAt exNav "fileA" = "TA" ∧ textAt exNav "fileB" = "TB" ∧
    get_content_by_page_range exNav 1 2 = some "TA\nTB" ∧ "TA\nTB" ≠ "TA" :=
  ⟨rfl, rfl, rfl, by decide⟩

/-- C4 amended: with the index `{1: (fileA, a1), 2: (fileA, a2),
3: (fileB, a3)}`, `get_content_by_page_range 1 2` reads fileA *and*
fileB (the stop file, containing page `2 + 1`, is included), and
`get_content_by_page_range 2 3` likewise reads fileA and fileB (page 4 is
unindexed, so the walk runs through the end of the spine). -/
theorem C4_amended :
    get_content_by_page_range exNav 1 2
        = some (textAt exNav "fileA" ++ "\n" ++ textAt exNav "fileB") ∧
    get_content_by_page_range exNav 2 3
        = some (textAt exNav "fileA" ++ "\n" ++ textAt exNav "fileB") :=
  ⟨rfl, rfl⟩

/-- The JSONL pass is exactly: trim each line of the stripped text, drop
blank lines, parse each remaining line independently, and silently skip
the lines that fail. -/
theorem lineRecords_eq_filterMap (text : String) :
    lineRecords text
      = (((pySplitLines (pyStrip text)).map pyStrip).filter
          (fun l => !(l == ""))).filterMap json_loads := by
  suffices h : ∀ (lines : List String) (acc : List JValue),
      lines.foldl (fun acc line =>
        let l := pyStrip line
        if l = "" then acc
        else
          match json_loads l with
          | some obj => acc ++ [obj]
          | none => acc) acc
      = acc ++ ((lines.map pyStrip).filter (fun l => !(l == ""))).filterMap json_loads by
    simpa using h (pySplitLines (pyStrip text)) []
  intro lines
  induction lines with
  | nil => simp
  | cons x xs ih =>
    intro acc
    simp only [List.foldl_cons, List.map_cons, List.filter_cons]
    by_cases hx : pyStrip x = ""
    · simp [hx, ih]
    · cases hj : json_loads (pyStrip x)
      · simp [hx, hj, ih]
      · simp [hx, hj, ih]

/-- C5: chunk parsing attempts line-by-line JSON first, silently skipping
failing lines (two valid JSONL lines followed by a truncated one yield
exactly the two records, no exception); only when zero lines parse does
it parse the whole cleaned text as one JSON value, taking a top-level
list as-is (a multi-line array of three objects yields exactly those
three records) and wrapping a single top-level object in a one-element
list. -/
theorem C5_two_stage_parse :
    parseChunkCodes truncatedResponse
        = [.obj [("code", .str "100")], .obj [("code", .str "200")]] ∧
    parseChunkCodes arrayResponse
        = [.obj [("code", .str "A")], .obj [("code", .str "B")], .obj [("code", .str "C")]] ∧
    (∀ text, lineRecords text
        = (((pySplitLines (pyStrip text)).map pyStrip).filter
            (fun l => !(l == ""))).filterMap json_loads) ∧
    (∀ text, lineRecords text ≠ [] → parseChunkCodes text = lineRecords text) ∧
    (∀ text l, lineRecords text = [] → json_loads text = some (.arr l) →
        parseChunkCodes text = l) ∧
    (∀ text ms, lineRecords text = [] → json_loads text = some (.obj ms) →
        parseChunkCodes text = [.obj ms]) := by
  refine ⟨rfl, rfl, lineRecords_eq_filterMap, ?_, ?_, ?_⟩
  · intro text h
    unfold parseChunkCodes
    cases hlr : lineRecords text with
    | nil => exact absurd hlr h
    | cons c cs => rfl
  · intro text l h hl
    unfold parseChunkCodes
    rw [h, hl]
  · intro text ms h hl
    unfold parseChunkCodes
    rw [h, hl]

/-- Witness for C5, exercising the line pass (truncated response), the
list fallback (multi-line array) and the object-wrapping fallback. -/
theorem C5_witness :
    (lineRecords truncatedResponse ≠ [] ∧
      parseChunkCodes truncatedResponse = lineRecords truncatedResponse) ∧
    (lineRecords arrayResponse = [] ∧
      json_loads arrayResponse
        = some (.arr [.obj [("code", .str "A")], .obj [("code", .str "B")],
                      .obj [("code", .str "C")]]) ∧
      parseChunkCodes arrayResponse
        = [.obj [("code", .str "A")], .obj [("code", .str "B")], .obj [("code", .str "C")]]) ∧
    (lineRecords objectResponse = [] ∧
      json_loads objectResponse = some (.obj [("code", .str "X")]) ∧
      parseChunkCodes objectResponse = [.obj [("code", .str "X")]]) := by
  have hne : lineRecords truncatedResponse
      = [.obj [("code", .str "100")], .obj [("code", .str "200")]] := rfl
  refine ⟨⟨?_, C5_two_stage_parse.2.2.2.1 _ ?_⟩,
          ⟨rfl, rfl, C5_two_stage_parse.2.2.2.2.1 _ _ rfl rfl⟩,
          ⟨rfl, rfl, C5_two_stage_parse.2.2.2.2.2 _ _ rfl rfl⟩⟩ <;>
    · rw [hne]; exact List.cons_ne_nil _ _

/-- C1 (code bug): a generation-call exception makes `extract_pages`
return the literal `"[]"`; the JSONL pass parses that single line into
one record — the empty JSON array — so the driver takes the success
branch, sets `last_code_context` to a non-dict, and the
`last_code_context.get('code', 'N/A')` access raises an uncaught
`AttributeError`, aborting the whole run (first two conjuncts).  The
pure zero-records path, by contrast, behaves exactly as the claim says:
debug artifact named by the page range holding the raw cleaned text, no
raise, carried state untouched (third conjunct). -/
theorem C1_generation_failure_aborts :
    (∀ st s e, processChunk st s e (extract_pages_result none) = .crash) ∧
    (∀ st s e rest, runChunks st ((s, e, extract_pages_result none) :: rest) = none) ∧
    (∀ st s e text, parseChunkCodes text = [] →
      processChunk st s e text
        = .ok st none (some (debugArtifactName s e, text))) := by
  refine ⟨fun st s e => rfl, fun st s e rest => rfl, fun st s e text h => ?_⟩
  simp only [processChunk, h]

/-- Overwriting every entry carrying key `k` leaves lookups of other keys
unchanged. -/
theorem lookupPage_map_overwrite (m : List (Nat × PageInfo)) (k : Nat) (v : PageInfo)
    (k' : Nat) (h : k' ≠ k) :
    lookupPage (m.map (fun p => if p.1 = k then (k, v) else p)) k' = lookupPage m k' := by
  induction m with
  | nil => rfl
  | cons x m ih =>
    by_cases hx : x.1 = k
    · have h1 : k ≠ k' := Ne.symm h
      have h2 : x.1 ≠ k' := fun e => h (e ▸ hx)
      simp [lookupPage, hx, h1, h2, ih]
    · by_cases hx' : x.1 = k'
      · simp [lookupPage, hx, hx', h]
      · simp [lookupPage, hx, hx', ih]

/-- When key `k` is present, overwriting resolves its lookup to the new
value. -/
theorem lookupPage_map_overwrite_self (m : List (Nat × PageInfo)) (k : Nat) (v : PageInfo)
    (h : m.any (fun p => p.1 = k) = true) :
    lookupPage (m.map (fun p => if p.1 = k then (k, v) else p)) k = some v := by
  induction m with
  | nil => simp at h
  | cons x m ih =>
    by_cases hx : x.1 = k
    · simp [lookupPage, hx]
    · have h' : m.any (fun p => p.1 = k) = true := by
        simpa [List.any_cons, hx] using h
      simp [lookupPage, hx, ih h']

/-- When key `k` is absent, appending `(k, v)` resolves `k` and leaves
other keys unchanged. -/
theorem lookupPage_append_new (m : List (Nat × PageInfo)) (k : Nat) (v : PageInfo)
    (k' : Nat) (h : m.any (fun p => p.1 = k) = false) :
    lookupPage (m ++ [(k, v)]) k' = if k' = k then some v else lookupPage m k' := by
  induction m with
  | nil =>
    by_cases hk : k' = k
    · subst hk; simp [lookupPage]
    · have h2 : ¬k = k' := fun e => hk e.symm
      simp [lookupPage, hk, h2]
  | cons x m ih =>
    cases hd : (decide (x.1 = k)) with
    | true =>
      exfalso
      rw [List.any_cons, hd] at h
      simp at h
    | false =>
      have hxk : ¬x.1 = k := of_decide_eq_false hd
      have h' : m.any (fun p => decide (p.1 = k)) = false := by
        rw [List.any_cons, hd] at h
        simpa using h
      by_cases hx' : x.1 = k'
      · have hk2 : ¬k' = k := fun e => hxk (by rw [hx', e])
        simp [lookupPage, hx', hk2]
      · simp [lookupPage, hx', ih h']

/-- Python dict assignment, observed through lookup: the assigned key now
maps to the new value, every other key is untouched. -/
theorem lookupPage_dinsert (m : List (Nat × PageInfo)) (k : Nat) (v : PageInfo) (k' : Nat) :
    lookupPage (dinsert m k v) k' = if k' = k then some v else lookupPage m k' := by
  unfold dinsert
  by_cases hmem : (m.any fun p => decide (p.1 = k)) = true
  · rw [if_pos hmem]
    by_cases hk : k' = k
    · rw [if_pos hk, hk]
      exact lookupPage_map_overwrite_self m k v hmem
    · rw [if_neg hk]
      exact lookupPage_map_overwrite m k v k' hk
  · rw [if_neg hmem]
    have hf : (m.any fun p => decide (p.1 = k)) = false := by
      cases hb : (m.any fun p => decide (p.1 = k))
      · rfl
      · exact absurd hb hmem
    exact lookupPage_append_new m k v k' hf

/-- Folding a list of dict assignments left-to-right realises exactly
"the last assignment for each key wins", falling back to the starting
dict for keys never assigned. -/
theorem lookupPage_foldl_dinsert (l : List (Nat × PageInfo)) (m : List (Nat × PageInfo))
    (k : Nat) :
    lookupPage (l.foldl (fun m p => dinsert m p.1 p.2) m) k
      = oOr (lastAssign l k) (lookupPage m k) := by
  induction l generalizing m with
  | nil => rfl
  | cons p l ih =>
    simp only [List.foldl_cons, lastAssign]
    rw [ih, lookupPage_dinsert]
    cases hla : lastAssign l k with
    | some v => simp [oOr]
    | none =>
      simp only [oOr]
      by_cases hp : p.1 = k
      · rw [if_pos hp.symm, if_pos hp]
      · rw [if_neg (fun e => hp e.symm), if_neg hp]

/-- The nested scan loops of `_build_page_map` perform exactly the
flattened assignment sequence `scanAssignments`, in order. -/
theorem build_page_map_foldl (manifest : String → Option String) (opf_dir : String)
    (spanIds : String → List String) :
    ∀ (sp : List String) (m : List (Nat × PageInfo)),
      sp.foldl (fun m item_id =>
        match manifest item_id with
        | none => m
        | some href =>
          let full_path := joinPath opf_dir href
          ((spanIds full_path).filter isPageMarkerId).foldl
            (fun m sid => dinsert m (pageNumOf sid) ⟨item_id, full_path, sid⟩) m) m
      = (scanAssignments sp manifest opf_dir spanIds).foldl
          (fun m p => dinsert m p.1 p.2) m := by
  intro sp
  induction sp with
  | nil => intro m; rfl
  | cons id rest ih =>
    intro m
    simp only [List.foldl_cons, scanAssignments, List.map_cons, List.flatten_cons,
      List.foldl_append]
    cases hm : manifest id with
    | none => simpa [hm] using ih _
    | some href => simp only [hm, List.foldl_map]; exact ih _

/-- `_build_page_map` as a fold of the assignment sequence. -/
theorem build_page_map_eq (spine : List String) (manifest : String → Option String)
    (opf_dir : String) (spanIds : String → List String) :
    build_page_map spine manifest opf_dir spanIds
      = (scanAssignments spine manifest opf_dir spanIds).foldl
          (fun m p => dinsert m p.1 p.2) [] :=
  build_page_map_foldl manifest opf_dir spanIds spine []

/-- C2 amended: for every page number matched by one or more
page-boundary markers during the build scan, the built page map binds it
to the *last* (file, anchor) pair seen in spine order (each later marker
silently overwrites the earlier one; no error is raised); page numbers
never matched stay unbound. -/
theorem C2_last_marker_wins (spine : List String) (manifest : String → Option String)
    (opf_dir : String) (spanIds : String → List String) (page : Nat) :
    lookupPage (build_page_map spine manifest opf_dir spanIds) page
      = lastAssign (scanAssignments spine manifest opf_dir spanIds) page := by
  rw [build_page_map_eq, lookupPage_foldl_dinsert]
  cases lastAssign (scanAssignments spine manifest opf_dir spanIds) page <;> rfl

/-- C2 counterexample: page 7 is matched by a marker in file A and again
in file B; the scan sequence's first pair for 7 is A's, but the built map
binds 7 to B's pair — first-seen-in-spine-order does not win. -/
theorem C2_counterexample :
    scanAssignments ["A", "B"] dupManifest "" dupSpans
      = [(7, ⟨"A", "a.html", "page_7"⟩), (7, ⟨"B", "b.html", "page_7"⟩)] ∧
    lookupPage (build_page_map ["A", "B"] dupManifest "" dupSpans) 7
      = some ⟨"B", "b.html", "page_7"⟩ ∧
    (⟨"B", "b.html", "page_7"⟩ : PageInfo) ≠ ⟨"A", "a.html", "page_7"⟩ :=
  ⟨rfl, rfl, by decide⟩

/-- Decimal digit characters: validity of digit code points. -/
theorem digitChar_spec (d : Nat) (h : d < 10) :
    (Char.ofNat (48 + d)).isDigit = true ∧ (Char.ofNat (48 + d)).toNat = 48 + d := by
  interval_cases d <;> exact ⟨by decide, by decide⟩

/-- Appending one digit multiplies the accumulated value by ten. -/
theorem digitsVal_append_digit (xs : List Char) (c : Char) :
    digitsVal (xs ++ [c]) = digitsVal xs * 10 + (c.toNat - 48) := by
  simp [digitsVal, List.foldl_append]

/-- The decimal printer emits a nonempty all-digit string whose value is
the printed number (with enough fuel). -/
theorem natChars_ok : ∀ (fuel n : Nat), n < fuel →
    natChars fuel n ≠ [] ∧ (natChars fuel n).all Char.isDigit = true ∧
      digitsVal (natChars fuel n) = n := by
  intro fuel
  induction fuel with
  | zero => intro n h; omega
  | succ fuel ih =>
    intro n h
    by_cases h10 : n < 10
    · obtain ⟨hd, ht⟩ := digitChar_spec n h10
      refine ⟨by simp [natChars, h10], by simp [natChars, h10, hd], ?_⟩
      simp only [natChars, if_pos h10, digitsVal, List.foldl_cons, List.foldl_nil]
      omega
    · have hdivlt : n / 10 < n := Nat.div_lt_self (by omega) (by omega)
      have hdiv : n / 10 < fuel := by omega
      obtain ⟨ih1, ih2, ih3⟩ := ih (n / 10) hdiv
      obtain ⟨hd, ht⟩ := digitChar_spec (n % 10) (Nat.mod_lt n (by omega))
      have heq : natChars (fuel + 1) n
          = natChars fuel (n / 10) ++ [Char.ofNat (48 + n % 10)] := by
        simp [natChars, h10]
      refine ⟨by simp [heq], by simp [heq, List.all_append, ih2, hd], ?_⟩
      rw [heq, digitsVal_append_digit, ih3, ht]
      have := Nat.div_add_mod n 10
      omega

/-- The key coercion round-trip: Python `int(str(n)) = n` for the
nonnegative keys the page map carries. -/
theorem int_of_str_str_of_nat (n : Nat) : int_of_str (str_of_nat n) = some n := by
  obtain ⟨h1, h2, h3⟩ := natChars_ok (n + 1) n (Nat.lt_succ_self n)
  simp only [int_of_str, str_of_nat]
  rw [if_pos ⟨h1, h2⟩]
  exact congrArg some h3

/-- Lookup in the cached rendering of a page map. -/
def lookupLoaded : List (Nat × JValue) → Nat → Option JValue
  | [], _ => none
  | p :: m, k => if p.1 = k then some p.2 else lookupLoaded m k

/-- C6: dumping a built page map to the JSON cache (int keys become their
decimal strings) and loading it back (string keys coerced to integers,
values verbatim) yields exactly the original mapping — entry for entry,
and therefore for every page number present. -/
theorem C6_cache_roundtrip (m : List (Nat × PageInfo)) :
    loadPageMap (dumpPageMap m) = some (m.map (fun p => (p.1, infoToJson p.2))) ∧
    ∀ k, lookupLoaded (m.map (fun p => (p.1, infoToJson p.2))) k
        = (lookupPage m k).map infoToJson := by
  constructor
  · induction m with
    | nil => rfl
    | cons p m ih =>
      simp only [dumpPageMap, List.map_cons] at ih ⊢
      simp only [loadPageMap, int_of_str_str_of_nat, ih]
  · intro k
    induction m with
    | nil => rfl
    | cons p m ih =>
      by_cases hp : p.1 = k
      · simp [lookupLoaded, lookupPage, hp]
      · simp [lookupLoaded, lookupPage, hp, ih]

/-- Witness for C1's conditional conjunct at a concrete unparsable
response, together with a concrete aborted run. -/
theorem C1_witness :
    runChunks ⟨[], none⟩ [(64, 68, extract_pages_result none)] = none ∧
    parseChunkCodes "not json" = [] ∧
    processChunk ⟨[], none⟩ 64 68 "not json"
      = .ok ⟨[], none⟩ none (some (debugArtifactName 64 68, "not json")) :=
  ⟨C1_generation_failure_aborts.2.1 ⟨[], none⟩ 64 68 [], rfl,
    C1_generation_failure_aborts.2.2 ⟨[], none⟩ 64 68 "not json" rfl⟩

theorem oOr_none_right (a : Option String) : oOr a none = a := by cases a <;> rfl

theorem oOr_assoc (a b c : Option String) : oOr (oOr a b) c = oOr a (oOr b c) := by
  cases a <;> rfl

/-- Once a level is resolved, later alternatives are ignored. -/
theorem oOr_absorb_of_isSome (a b c : Option String) (h : (oOr a b).isSome = true) :
    oOr a (oOr b c) = oOr a b := by
  cases a with
  | some x => rfl
  | none =>
    cases b with
    | some y => rfl
    | none => simp [oOr] at h

/-- Extensionality for the hierarchy context record. -/
theorem hctx_ext {a b : HierarchyContext}
    (h1 : a.«section» = b.«section») (h2 : a.section_text = b.section_text)
    (h3 : a.subsection = b.subsection) (h4 : a.subsection_text = b.subsection_text)
    (h5 : a.subheading = b.subheading) (h6 : a.subheading_text = b.subheading_text)
    (h7 : a.topic = b.topic) (h8 : a.topic_text = b.topic_text) : a = b := by
  cases a; cases b; simp_all

/-- The per-level backward search unfolds one visited file at a time. -/
theorem backSearch_cons (nav : EPUBNavigator) (id : String) (rest : List String)
    (tag : String) :
    backSearch nav (id :: rest) tag
      = oOr (lastHeading nav id tag) (backSearch nav rest tag) := by
  simp only [backSearch, List.filterMap_cons]
  cases lastHeading nav id tag <;> rfl

/-- A conditional level update is a left-biased choice. -/
theorem fill_opt (o L : Option String) : (if o = none then L else o) = oOr o L := by
  cases o <;> rfl

theorem fill_section (nav : EPUBNavigator) (p : String) (ctx : HierarchyContext) :
    (fillFromFile nav p ctx).«section»
      = oOr ctx.«section» ((nav.headings p "h1").getLast?) := fill_opt _ _

theorem fill_subsection (nav : EPUBNavigator) (p : String) (ctx : HierarchyContext) :
    (fillFromFile nav p ctx).subsection
      = oOr ctx.subsection ((nav.headings p "h2").getLast?) := fill_opt _ _

theorem fill_subheading (nav : EPUBNavigator) (p : String) (ctx : HierarchyContext) :
    (fillFromFile nav p ctx).subheading
      = oOr ctx.subheading ((nav.headings p "h3").getLast?) := fill_opt _ _

theorem fill_topic (nav : EPUBNavigator) (p : String) (ctx : HierarchyContext) :
    (fillFromFile nav p ctx).topic
      = oOr ctx.topic ((nav.headings p "h4").getLast?) := fill_opt _ _

/-- The backward walk computes, for each of the four levels independently,
the last occurrence of that level's tag in the nearest visited file that
has one — the early exit once all four levels resolve does not change the
result, and the text fields ride along untouched. -/
theorem hierFiles_spec (nav : EPUBNavigator) :
    ∀ (files : List String) (ctx : HierarchyContext),
      (∀ id ∈ files, (nav.manifest id).isSome) →
      hierFiles nav files ctx
        = some ⟨oOr ctx.«section» (backSearch nav files "h1"), ctx.section_text,
                oOr ctx.subsection (backSearch nav files "h2"), ctx.subsection_text,
                oOr ctx.subheading (backSearch nav files "h3"), ctx.subheading_text,
                oOr ctx.topic (backSearch nav files "h4"), ctx.topic_text⟩ := by
  intro files
  induction files with
  | nil =>
    intro ctx _
    simp only [hierFiles, backSearch, List.filterMap_nil, List.head?_nil, oOr_none_right]
  | cons id rest ih =>
    intro ctx hman
    obtain ⟨href, hm⟩ := Option.isSome_iff_exists.mp (hman id (by simp))
    have hpath : joinPath nav.opf_dir href = pathOf nav id := by
      simp [pathOf, hm]
    have hlh : ∀ tag, ((nav.headings (joinPath nav.opf_dir href) tag).getLast? : Option String)
          = lastHeading nav id tag := by
      intro tag
      rw [hpath]
      rfl
    simp only [hierFiles, hm]
    have hrest : ∀ x ∈ rest, (nav.manifest x).isSome :=
      fun x hx => hman x (by simp [hx])
    by_cases hall : allResolved (fillFromFile nav (joinPath nav.opf_dir href) ctx) = true
    · rw [if_pos hall]
      simp only [allResolved, Bool.and_eq_true, fill_section, fill_subsection,
        fill_subheading, fill_topic, hlh] at hall
      obtain ⟨⟨⟨hs, hss⟩, hsh⟩, ht⟩ := hall
      have e1 : (fillFromFile nav (joinPath nav.opf_dir href) ctx).«section»
          = oOr ctx.«section» (backSearch nav (id :: rest) "h1") := by
        rw [fill_section, hlh, backSearch_cons, oOr_absorb_of_isSome _ _ _ hs]
      have e2 : (fillFromFile nav (joinPath nav.opf_dir href) ctx).subsection
          = oOr ctx.subsection (backSearch nav (id :: rest) "h2") := by
        rw [fill_subsection, hlh, backSearch_cons, oOr_absorb_of_isSome _ _ _ hss]
      have e3 : (fillFromFile nav (joinPath nav.opf_dir href) ctx).subheading
          = oOr ctx.subheading (backSearch nav (id :: rest) "h3") := by
        rw [fill_subheading, hlh, backSearch_cons, oOr_absorb_of_isSome _ _ _ hsh]
      have e4 : (fillFromFile nav (joinPath nav.opf_dir href) ctx).topic
          = oOr ctx.topic (backSearch nav (id :: rest) "h4") := by
        rw [fill_topic, hlh, backSearch_cons, oOr_absorb_of_isSome _ _ _ ht]
      exact congrArg some (hctx_ext e1 rfl e2 rfl e3 rfl e4 rfl)
    · rw [if_neg hall, ih _ hrest]
      have e1 : oOr (fillFromFile nav (joinPath nav.opf_dir href) ctx).«section»
            (backSearch nav rest "h1")
          = oOr ctx.«section» (backSearch nav (id :: rest) "h1") := by
        rw [fill_section, hlh, oOr_assoc, backSearch_cons]
      have e2 : oOr (fillFromFile nav (joinPath nav.opf_dir href) ctx).subsection
            (backSearch nav rest "h2")
          = oOr ctx.subsection (backSearch nav (id :: rest) "h2") := by
        rw [fill_subsection, hlh, oOr_assoc, backSearch_cons]
      have e3 : oOr (fillFromFile nav (joinPath nav.opf_dir href) ctx).subheading
            (backSearch nav rest "h3")
          = oOr ctx.subheading (backSearch nav (id :: rest) "h3") := by
        rw [fill_subheading, hlh, oOr_assoc, backSearch_cons]
      have e4 : oOr (fillFromFile nav (joinPath nav.opf_dir href) ctx).topic
            (backSearch nav rest "h4")
          = oOr ctx.topic (backSearch nav (id :: rest) "h4") := by
        rw [fill_topic, hlh, oOr_assoc, backSearch_cons]
      exact congrArg some (hctx_ext e1 rfl e2 rfl e3 rfl e4 rfl)

/-- C8: for an indexed page whose file sits at spine index `i`, hierarchy
resolution walks the spine backward from (and including) that file and
resolves each of the four levels to the last occurrence of its heading
tag in the nearest visited file containing one, leaving a level
unresolved when no visited file has its tag (the early stop once all four
levels resolve never changes the outcome); in particular, for a file
whose `h1` headings are "Surgery" then "Medicine" in that order,
resolving a page anchored there yields section "Medicine". -/
theorem C8_backward_hierarchy (nav : EPUBNavigator) (page : Nat) (info : PageInfo) (i : Nat)
    (hpage : lookupPage nav.page_map page = some info)
    (hidx : list_index nav.spine info.file_id = some i)
    (hman : ∀ id ∈ (nav.spine.take (i + 1)).reverse, (nav.manifest id).isSome) :
    get_hierarchy_context nav page
      = some ⟨backSearch nav ((nav.spine.take (i + 1)).reverse) "h1", none,
              backSearch nav ((nav.spine.take (i + 1)).reverse) "h2", none,
              backSearch nav ((nav.spine.take (i + 1)).reverse) "h3", none,
              backSearch nav ((nav.spine.take (i + 1)).reverse) "h4", none⟩ ∧
    (get_hierarchy_context hierNav 10).map (fun c => c.«section») = some (some "Medicine") := by
  constructor
  · simp only [get_hierarchy_context, hpage, hidx]
    rw [hierFiles_spec nav _ emptyContext hman]
    rfl
  · rfl

/-- Witness for C8 on the Surgery/Medicine fixture. -/
theorem C8_witness :
    lookupPage hierNav.page_map 10 = some ⟨"fileA", "A.html", "page_10"⟩ ∧
    list_index hierNav.spine "fileA" = some 0 ∧
    get_hierarchy_context hierNav 10
      = some ⟨backSearch hierNav ((hierNav.spine.take 1).reverse) "h1", none,
              backSearch hierNav ((hierNav.spine.take 1).reverse) "h2", none,
              backSearch hierNav ((hierNav.spine.take 1).reverse) "h3", none,
              backSearch hierNav ((hierNav.spine.take 1).reverse) "h4", none⟩ ∧
    backSearch hierNav ((hierNav.spine.take 1).reverse) "h1" = some "Medicine" :=
  ⟨rfl, rfl,
    (C8_backward_hierarchy hierNav 10 ⟨"fileA", "A.html", "page_10"⟩ 0 rfl rfl
      (by decide)).1, rfl⟩

/-- Files before the start file are skipped without being read and
without the stop check firing. -/
theorem rangeLoop_skip (nav : EPUBNavigator) (sFile : String) (eInfo : Option PageInfo) :
    ∀ (pre l : List String) (content : List String),
      (∀ id ∈ pre, id ≠ sFile) → (∀ id ∈ pre, (nav.manifest id).isSome) →
      rangeLoop nav sFile eInfo (pre ++ l) false content
        = rangeLoop nav sFile eInfo l false content := by
  intro pre
  induction pre with
  | nil => intro l c _ _; rfl
  | cons id pre ih =>
    intro l c hne hman
    obtain ⟨href, hm⟩ := Option.isSome_iff_exists.mp (hman id (by simp))
    simp only [List.cons_append, rangeLoop, hm]
    rw [if_pos ⟨True.intro, hne id (by simp)⟩]
    exact ih l c (fun x hx => hne x (by simp [hx])) (fun x hx => hman x (by simp [hx]))

/-- With no stop boundary, the collecting walk appends every remaining
file's text through the end of the spine. -/
theorem rangeLoop_collect_none (nav : EPUBNavigator) (sFile : String) :
    ∀ (l : List String) (content : List String),
      (∀ id ∈ l, (nav.manifest id).isSome) →
      rangeLoop nav sFile none l true content = some (content ++ l.map (textAt nav)) := by
  intro l
  induction l with
  | nil => intro c _; simp [rangeLoop]
  | cons id l ih =>
    intro c hman
    obtain ⟨href, hm⟩ := Option.isSome_iff_exists.mp (hman id (by simp))
    have htx : nav.textOf (joinPath nav.opf_dir href) = textAt nav id := by
      simp [textAt, pathOf, hm]
    simp only [rangeLoop, hm]
    rw [if_neg (by simp), ih _ (fun x hx => hman x (by simp [hx])), htx]
    simp

/-- With a stop boundary, the collecting walk appends texts up to and
including the first occurrence of the stop file, then breaks. -/
theorem rangeLoop_collect_some (nav : EPUBNavigator) (sFile : String) (ei : PageInfo) :
    ∀ (seg tail : List String) (content : List String),
      ei.file_id ∉ seg → (∀ id ∈ seg, (nav.manifest id).isSome) →
      (nav.manifest ei.file_id).isSome →
      rangeLoop nav sFile (some ei) (seg ++ ei.file_id :: tail) true content
        = some (content ++ (seg ++ [ei.file_id]).map (textAt nav)) := by
  intro seg
  induction seg with
  | nil =>
    intro tail c _ _ hmane
    obtain ⟨href, hm⟩ := Option.isSome_iff_exists.mp hmane
    have htx : nav.textOf (joinPath nav.opf_dir href) = textAt nav ei.file_id := by
      simp [textAt, pathOf, hm]
    simp only [List.nil_append, rangeLoop, hm]
    rw [if_neg (by simp), if_pos True.intro, htx]
    simp
  | cons id seg ih =>
    intro tail c hni hman hmane
    obtain ⟨href, hm⟩ := Option.isSome_iff_exists.mp (hman id (by simp))
    have htx : nav.textOf (joinPath nav.opf_dir href) = textAt nav id := by
      simp [textAt, pathOf, hm]
    have hne : ¬id = ei.file_id := by
      intro e
      exact hni (by rw [← e]; exact List.mem_cons_self id seg)
    simp only [List.cons_append, rangeLoop, hm]
    rw [if_neg (by simp), if_neg hne]
    simp only [List.append_eq]
    rw [ih tail _ (fun hmem => hni (by simp [hmem]))
        (fun x hx => hman x (by simp [hx])) hmane, htx]
    simp

/-- C3: for an indexed start page, the extractor concatenates (joined by
newlines) the text of every spine file from the start page's file
through the file holding `end_page + 1` inclusive, in spine order; and
when `end_page + 1` is unindexed the concatenation runs through the last
file of the spine instead of stopping early. -/
theorem C3_range_files (nav : EPUBNavigator) (start_page end_page : Nat)
    (si : PageInfo) (pre rest : List String)
    (hstart : lookupPage nav.page_map start_page = some si)
    (hspine : nav.spine = pre ++ si.file_id :: rest)
    (hpre : si.file_id ∉ pre)
    (hman : ∀ id ∈ nav.spine, (nav.manifest id).isSome) :
    (lookupPage nav.page_map (end_page + 1) = none →
      get_content_by_page_range nav start_page end_page
        = some (String.intercalate "\n" ((si.file_id :: rest).map (textAt nav)))) ∧
    (∀ ei seg tail, lookupPage nav.page_map (end_page + 1) = some ei →
      si.file_id :: rest = seg ++ ei.file_id :: tail → ei.file_id ∉ seg →
      get_content_by_page_range nav start_page end_page
        = some (String.intercalate "\n" ((seg ++ [ei.file_id]).map (textAt nav)))) := by
  have hman' : ∀ id ∈ pre ++ si.file_id :: rest, (nav.manifest id).isSome := by
    rw [← hspine]; exact hman
  have hmanpre : ∀ id ∈ pre, (nav.manifest id).isSome :=
    fun id h => hman' id (List.mem_append_left _ h)
  have hnepre : ∀ id ∈ pre, id ≠ si.file_id := fun id h e => hpre (e ▸ h)
  have hmanS : (nav.manifest si.file_id).isSome :=
    hman' _ (List.mem_append_right _ (List.mem_cons_self _ _))
  have hmanrest : ∀ id ∈ rest, (nav.manifest id).isSome :=
    fun id h => hman' id (List.mem_append_right _ (List.mem_cons_of_mem _ h))
  obtain ⟨hrefS, hmS⟩ := Option.isSome_iff_exists.mp hmanS
  have htxS : nav.textOf (joinPath nav.opf_dir hrefS) = textAt nav si.file_id := by
    simp [textAt, pathOf, hmS]
  constructor
  · intro hend
    have hloop : rangeLoop nav si.file_id none nav.spine false []
        = some ((si.file_id :: rest).map (textAt nav)) := by
      rw [hspine, rangeLoop_skip nav si.file_id none pre _ [] hnepre hmanpre]
      simp only [rangeLoop, hmS]
      rw [if_neg (by simp), rangeLoop_collect_none nav si.file_id rest _ hmanrest, htxS]
      simp
    simp only [get_content_by_page_range, hstart, hend, hloop]
  · intro ei seg tail hend hdec hni
    cases seg with
    | nil =>
      have h1 : si.file_id = ei.file_id := (List.cons.injEq _ _ _ _ ▸ hdec).1
      have hloop : rangeLoop nav si.file_id (some ei) nav.spine false []
          = some [textAt nav si.file_id] := by
        rw [hspine, rangeLoop_skip nav si.file_id (some ei) pre _ [] hnepre hmanpre]
        simp only [rangeLoop, hmS]
        rw [if_neg (by simp), if_pos h1, htxS]
        simp
      simp only [get_content_by_page_range, hstart, hend, hloop]
      rw [← h1]
      simp
    | cons s0 seg' =>
      have hinj := List.cons.injEq _ _ _ _ ▸ hdec
      have hs0 : si.file_id = s0 := by simpa using hinj.1
      have hrest : rest = seg' ++ ei.file_id :: tail := by simpa using hinj.2
      have hneS : ¬si.file_id = ei.file_id := by
        intro e
        exact hni (by rw [← e, hs0] at *; exact List.mem_cons_self _ _)
      have hni' : ei.file_id ∉ seg' := fun hmem => hni (by simp [hmem])
      have hmanseg : ∀ id ∈ seg', (nav.manifest id).isSome := by
        intro id h
        exact hmanrest id (by rw [hrest]; exact List.mem_append_left _ h)
      have hmanE : (nav.manifest ei.file_id).isSome := by
        apply hmanrest
        rw [hrest]
        exact List.mem_append_right _ (List.mem_cons_self _ _)
      have hloop : rangeLoop nav si.file_id (some ei) nav.spine false []
          = some ((si.file_id :: (seg' ++ [ei.file_id])).map (textAt nav)) := by
        rw [hspine, rangeLoop_skip nav si.file_id (some ei) pre _ [] hnepre hmanpre]
        simp only [rangeLoop, hmS]
        rw [if_neg (by simp), if_neg hneS, hrest,
          rangeLoop_collect_some nav si.file_id ei seg' tail _ hni' hmanseg hmanE, htxS]
        simp
      simp only [get_content_by_page_range, hstart, hend, hloop]
      rw [hs0]
      simp

/-- Witness for C3 on the fixture index, exercising both the unindexed
look-ahead (pages 2–3: run through the end of the spine) and the indexed
stop boundary (pages 1–1: stop at page 2's file, fileA itself). -/
theorem C3_witness :
    get_content_by_page_range exNav 2 3
        = some (String.intercalate "\n" ((["fileA", "fileB"] : List String).map (textAt exNav))) ∧
    get_content_by_page_range exNav 1 1
        = some (String.intercalate "\n" ((([] : List String) ++ ["fileA"]).map (textAt exNav))) :=
  ⟨(C3_range_files exNav 2 3 ⟨"fileA", "A.html", "a2"⟩ [] ["fileB"] rfl rfl
      (by decide) (by decide)).1 rfl,
    (C3_range_files exNav 1 1 ⟨"fileA", "A.html", "a1"⟩ [] ["fileB"] rfl rfl
      (by decide) (by decide)).2 ⟨"fileA", "A.html", "a2"⟩ [] ["fileB"] rfl rfl
      (by decide)⟩

theorem foldl_min_le (ps : List Nat) (p : Nat) : ∀ q ∈ p :: ps, ps.foldl min p ≤ q := by
  induction ps generalizing p with
  | nil =>
    intro q hq
    simp only [List.mem_singleton] at hq
    simp [hq]
  | cons a ps ih =>
    intro q hq
    rcases List.mem_cons.mp hq with rfl | hq'
    · exact le_trans (le_trans (ih (min q a) (min q a) (by simp)) (min_le_left q a)) le_rfl
    · rcases List.mem_cons.mp hq' with rfl | hq''
      · exact le_trans (ih (min p q) (min p q) (by simp)) (min_le_right p q)
      · exact ih (min p a) q (by simp [hq''])

theorem foldl_max_ge (ps : List Nat) (p : Nat) : ∀ q ∈ p :: ps, q ≤ ps.foldl max p := by
  induction ps generalizing p with
  | nil =>
    intro q hq
    simp only [List.mem_singleton] at hq
    simp [hq]
  | cons a ps ih =>
    intro q hq
    rcases List.mem_cons.mp hq with rfl | hq'
    · exact le_trans (le_max_left q a) (ih (max q a) (max q a) (by simp))
    · rcases List.mem_cons.mp hq' with rfl | hq''
      · exact le_trans (le_max_right p q) (ih (max p q) (max p q) (by simp))
      · exact ih (max p a) q (by simp [hq''])

theorem foldl_min_mem (ps : List Nat) (p : Nat) : ps.foldl min p ∈ p :: ps := by
  induction ps generalizing p with
  | nil => simp
  | cons a ps ih =>
    have h := ih (min p a)
    rcases List.mem_cons.mp h with he | hmem
    · rcases min_choice p a with hc | hc
      · simp only [List.foldl_cons]
        rw [he, hc]
        simp
      · simp only [List.foldl_cons]
        rw [he, hc]
        simp
    · simp only [List.foldl_cons]
      exact List.mem_cons_of_mem _ (List.mem_cons_of_mem _ hmem)

theorem foldl_max_mem (ps : List Nat) (p : Nat) : ps.foldl max p ∈ p :: ps := by
  induction ps generalizing p with
  | nil => simp
  | cons a ps ih =>
    have h := ih (max p a)
    rcases List.mem_cons.mp h with he | hmem
    · rcases max_choice p a with hc | hc
      · simp only [List.foldl_cons]
        rw [he, hc]
        simp
      · simp only [List.foldl_cons]
        rw [he, hc]
        simp
    · simp only [List.foldl_cons]
      exact List.mem_cons_of_mem _ (List.mem_cons_of_mem _ hmem)

/-- Counting matches after a `filterMap` counts sources whose image
matches. -/
theorem countP_filterMap {α β : Type} (f : α → Option β) (q : β → Bool) (l : List α) :
    (l.filterMap f).countP q = l.countP (fun a => ((f a).map q).getD false) := by
  induction l with
  | nil => rfl
  | cons a l ih =>
    cases hf : f a with
    | none => simp [List.filterMap_cons, hf, List.countP_cons, ih]
    | some b => simp [List.filterMap_cons, hf, List.countP_cons, ih]

/-- On a duplicate-free list, a predicate satisfied by exactly one member
counts to one. -/
theorem countP_eq_one_unique {α : Type} (q : α → Bool) (x : α) :
    ∀ (l : List α), l.Nodup → x ∈ l → q x = true →
      (∀ y ∈ l, q y = true → y = x) → l.countP q = 1 := by
  intro l
  induction l with
  | nil => intro _ hx; cases hx
  | cons a l ih =>
    intro hnd hx hqx huniq
    rw [List.countP_cons]
    rcases List.mem_cons.mp hx with rfl | hxl
    · have h0 : l.countP q = 0 := by
        rw [List.countP_eq_zero]
        intro y hy hqy
        exact (List.nodup_cons.mp hnd).1 ((huniq y (List.mem_cons_of_mem _ hy) hqy) ▸ hy)
      simp [h0, hqx]
    · have hqa : q a = false := by
        cases hqa : q a
        · rfl
        · exact absurd ((huniq a (List.mem_cons_self _ _) hqa) ▸ hxl)
            (List.nodup_cons.mp hnd).1
      rw [ih (List.nodup_cons.mp hnd).2 hxl hqx
        (fun y hy hqy => huniq y (List.mem_cons_of_mem _ hy) hqy)]
      simp [hqa]

/-- An entry's page number is among its file's grouped pages. -/
theorem mem_pagesOfFile {m : List (Nat × PageInfo)} {k : Nat} {i : PageInfo}
    (h : (k, i) ∈ m) : k ∈ pagesOfFile m i.file_id := by
  simp only [pagesOfFile, List.mem_map, List.mem_filter]
  exact ⟨(k, i), ⟨h, by simp⟩, rfl⟩

/-- Under duplicate-free keys, the key determines the entry. -/
theorem key_nodup_eq (m : List (Nat × PageInfo))
    (hkeys : (m.map (fun p => p.1)).Nodup) (k : Nat) (x y : PageInfo)
    (hx : (k, x) ∈ m) (hy : (k, y) ∈ m) : x = y := by
  induction m with
  | nil => cases hx
  | cons a m ih =>
    rw [List.map_cons] at hkeys
    have hnd := List.nodup_cons.mp hkeys
    rcases List.mem_cons.mp hx with rfl | hxm
    · rcases List.mem_cons.mp hy with he | hym
      · exact (Prod.mk.injEq _ _ _ _ ▸ he.symm).2
      · exact absurd (List.mem_map.mpr ⟨(k, y), hym, rfl⟩) hnd.1
    · rcases List.mem_cons.mp hy with rfl | hym
      · exact absurd (List.mem_map.mpr ⟨(k, x), hxm, rfl⟩) hnd.1
      · exact ih hnd.2 hxm hym

/-- The boundary list names exactly the spine files owning at least one
indexed page, in spine order. -/
theorem boundaries_map_file_id (m : List (Nat × PageInfo)) :
    ∀ (spine : List String),
      (get_chapter_boundaries spine m).map (fun b => b.file_id)
        = spine.filter (fun fid => !(pagesOfFile m fid).isEmpty) := by
  intro spine
  induction spine with
  | nil => rfl
  | cons id sp ih =>
    simp only [get_chapter_boundaries] at ih ⊢
    rw [List.filterMap_cons, List.filter_cons]
    cases h : pagesOfFile m id with
    | nil => simp [h, ih]
    | cons p ps => simp [h, ih]

/-- C7 counterexample: with file A owning pages 1 and 3 and file B owning
page 2 (an interleaving the builder never rejects), the boundaries are
A:[1,3] and B:[2,2], and the indexed page 2 lies inside *two* boundaries'
ranges — the claimed partition fails. -/
theorem C7_counterexample :
    get_chapter_boundaries ["A", "B"] interMap
      = [⟨"A", 1, 3⟩, ⟨"B", 2, 2⟩] ∧
    lookupPage interMap 2 = some ⟨"B", "b", "p2"⟩ ∧
    (get_chapter_boundaries ["A", "B"] interMap).countP
      (fun b => boundaryContains b 2) = 2 :=
  ⟨rfl, rfl, rfl⟩

/-- C7 amended: `get_chapter_boundaries` emits exactly one boundary
{file, min page, max page} per spine file owning at least one indexed
page, in spine order, omitting files with zero indexed pages; each
boundary's endpoints are pages of its own file and bound all of that
file's pages; and — provided no two files' page sets interleave (any
indexed page lying between two pages of a file is itself a page of that
file), which the builder does not enforce — the boundaries partition the
indexed pages: every indexed page lies in exactly one boundary's range. -/
theorem C7_chapter_boundaries (spine : List String) (m : List (Nat × PageInfo))
    (hkeys : (m.map (fun p => p.1)).Nodup) (hspine : spine.Nodup)
    (howner : ∀ q ∈ m, q.2.file_id ∈ spine)
    (hni : ∀ fid ∈ spine, ∀ q ∈ m,
      (∃ a ∈ pagesOfFile m fid, a ≤ q.1) → (∃ b ∈ pagesOfFile m fid, q.1 ≤ b) →
      q.1 ∈ pagesOfFile m fid) :
    ((get_chapter_boundaries spine m).map (fun b => b.file_id)
        = spine.filter (fun fid => !(pagesOfFile m fid).isEmpty)) ∧
    (∀ b ∈ get_chapter_boundaries spine m,
      b.start_page ∈ pagesOfFile m b.file_id ∧ b.end_page ∈ pagesOfFile m b.file_id ∧
      ∀ p ∈ pagesOfFile m b.file_id, b.start_page ≤ p ∧ p ≤ b.end_page) ∧
    (∀ k i, (k, i) ∈ m →
      (get_chapter_boundaries spine m).countP (fun b => boundaryContains b k) = 1) := by
  refine ⟨boundaries_map_file_id m spine, ?_, ?_⟩
  · intro b hb
    obtain ⟨fid, _, hmk⟩ := List.mem_filterMap.mp hb
    cases h : pagesOfFile m fid with
    | nil => rw [h] at hmk; cases hmk
    | cons p ps =>
      rw [h] at hmk
      obtain rfl := Option.some.inj hmk
      refine ⟨?_, ?_, ?_⟩
      · show ps.foldl min p ∈ pagesOfFile m fid
        rw [h]
        exact foldl_min_mem ps p
      · show ps.foldl max p ∈ pagesOfFile m fid
        rw [h]
        exact foldl_max_mem ps p
      · intro q hq
        rw [h] at hq
        exact ⟨foldl_min_le ps p q hq, foldl_max_ge ps p q hq⟩
  · intro k i hki
    simp only [get_chapter_boundaries]
    rw [countP_filterMap]
    have hkmem : k ∈ pagesOfFile m i.file_id := mem_pagesOfFile hki
    refine countP_eq_one_unique _ i.file_id spine hspine (howner (k, i) hki) ?_ ?_
    · cases h : pagesOfFile m i.file_id with
      | nil => rw [h] at hkmem; cases hkmem
      | cons p ps =>
        rw [h] at hkmem
        have hmin := foldl_min_le ps p k hkmem
        have hmax := foldl_max_ge ps p k hkmem
        simp [h, boundaryContains, hmin, hmax]
    · intro g hg hqg
      cases h : pagesOfFile m g with
      | nil => simp [h] at hqg
      | cons p ps =>
        simp [h, boundaryContains] at hqg
        have hminmem : ps.foldl min p ∈ pagesOfFile m g := by
          rw [h]; exact foldl_min_mem ps p
        have hmaxmem : ps.foldl max p ∈ pagesOfFile m g := by
          rw [h]; exact foldl_max_mem ps p
        have hk : k ∈ pagesOfFile m g :=
          hni g hg (k, i) hki ⟨ps.foldl min p, hminmem, hqg.1⟩
            ⟨ps.foldl max p, hmaxmem, hqg.2⟩
        simp only [pagesOfFile, List.mem_map, List.mem_filter] at hk
        obtain ⟨⟨a, b⟩, ⟨habm, hbg⟩, hak⟩ := hk
        have habm2 : (k, b) ∈ m := by
          rw [← hak]
          exact habm
        have hbi : b = i := key_nodup_eq m hkeys k b i habm2 hki
        have hfb : b.file_id = g := of_decide_eq_true hbg
        rw [← hfb, hbi]

/-- Witness for C7 on a non-interleaved fixture map. -/
theorem C7_witness :
    get_chapter_boundaries ["A", "B"] contigMap = [⟨"A", 1, 2⟩, ⟨"B", 3, 3⟩] ∧
    (get_chapter_boundaries ["A", "B"] contigMap).countP
      (fun b => boundaryContains b 2) = 1 :=
  ⟨rfl,
    (C7_chapter_boundaries ["A", "B"] contigMap (by decide) (by decide) (by decide)
      (by decide)).2.2 2 ⟨"A", "a", "p2"⟩ (by decide)⟩

end EpubCpt
